import Mathlib

/-!
# Verification of the duplicate-detection core of the smartsheet-dashboard scripts

This file gives a shallow embedding, in Lean 4, of the duplicate-detection
logic of the repository:

* `src/duplicate_detector.py` — `extract_key_terms`, `calculate_topic_overlap`,
  `is_semantic_duplicate`, `find_all_duplicates`;
* `src/llm_duplicate_analyzer.py` — `extract_key_terms`, `quick_duplicate_check`,
  `llm_analyze_pair`, `analyze_pair_full`;
* `src/cleanup_duplicates.py` — `extract_key_terms`, `check_pair_is_duplicate`,
  `find_duplicates`.

All three modules measure text similarity with
`difflib.SequenceMatcher(None, a, b).ratio()` from the Python standard
library, so the file starts with a faithful embedding of that algorithm
(the greedy longest-matching-block decomposition, including the `autojunk`
"popular element" pruning that kicks in for strings of length ≥ 200).

Python strings are modelled as `List Char`; Python floats are modelled as
exact rationals `ℚ` (all the quantities involved are ratios of small
integers, where IEEE double arithmetic of the source is exact up to
correctly-rounded division; thresholds such as `0.75` are written as the
corresponding rationals).  Python `str.lower` is modelled by ASCII
lowercasing (`Char.toLower`), which agrees with Python on all the ASCII
texts this repository manipulates.
-/

/-! ## Small Python-string utilities -/

/-- `natRange s n` is Python's `range(s, s + n)` as a list (ascending). -/
def natRange (s : Nat) : Nat → List Nat
  | 0 => []
  | n + 1 => s :: natRange (s + 1) n

/-- Read a character of a string, `a[i]` (all uses are guarded in-range). -/
def nth (s : List Char) (i : Nat) : Char := s.getD i ' '

/-- Python `str.lower` (ASCII). -/
def lowerStr (s : List Char) : List Char := s.map Char.toLower

/-- Python string prefix test: `isPre n h` iff `h.startswith(n)`. -/
def isPre : List Char → List Char → Bool
  | [], _ => true
  | _ :: _, [] => false
  | c :: n, d :: h => c = d && isPre n h

/-- Python substring containment: `isSub n h` iff `n in h`. -/
def isSub (n : List Char) : List Char → Bool
  | [] => isPre n []
  | d :: h => isPre n (d :: h) || isSub n h

/-- Python lexicographic string `<=` (comparing code points). -/
def pyStrLe : List Char → List Char → Bool
  | [], _ => true
  | _ :: _, [] => false
  | c :: s, d :: t =>
    if c.toNat < d.toNat then true
    else if d.toNat < c.toNat then false
    else pyStrLe s t

/-! ## Embedding of `difflib.SequenceMatcher(None, a, b).ratio()`

The matcher is used by the repository with `isjunk = None`, so the junk set
`bjunk` is always empty; the two `while` loops of `find_longest_match` that
extend a match over junk elements are consequently exact no-ops and are
omitted.  The `autojunk` pruning of popular elements of `b` (default
`autojunk=True`) is embedded faithfully. -/

/-- Ascending list of the positions of `c` in `b` (the `b2j` entry before
popularity pruning). -/
def indicesOf (b : List Char) (c : Char) : List Nat :=
  (natRange 0 b.length).filter (fun j => decide (nth b j = c))

/-- `b2j b c`: positions of `c` in `b`, with "popular" elements pruned when
`autojunk` applies (`len(b) >= 200` and the element occurs more than
`len(b) // 100 + 1` times). -/
def b2j (b : List Char) (c : Char) : List Nat :=
  if 200 ≤ b.length ∧ b.length / 100 + 1 < (indicesOf b c).length then []
  else indicesOf b c

/-- One row of the `find_longest_match` dynamic programme: fold over the
occurrence list `js` of `a[i]` in `b` (already restricted to `[blo, bhi)`),
threading the fresh `newj2len` dictionary (as a total function, absent keys
being `0`) and the incumbent best block `(besti, bestj, bestsize)`. -/
def dpGo (prev : Nat → Nat) (i : Nat) :
    List Nat → (Nat → Nat) → Nat × Nat × Nat → (Nat → Nat) × (Nat × Nat × Nat)
  | [], new, best => (new, best)
  | j :: js, new, best =>
    let k := (if j = 0 then 0 else prev (j - 1)) + 1
    let new' := fun x => if x = j then k else new x
    let best' := if best.2.2 < k then (i + 1 - k, j + 1 - k, k) else best
    dpGo prev i js new' best'

/-- The outer loop of the dynamic programme, over the rows `i ∈ range(alo, ahi)`.
`prev` is the previous row's `j2len` dictionary. -/
def dpRows (a b : List Char) (blo bhi : Nat) :
    List Nat → (Nat → Nat) → Nat × Nat × Nat → Nat × Nat × Nat
  | [], _, best => best
  | i :: is, prev, best =>
    let js := ((b2j b (nth a i)).filter (fun j => decide (blo ≤ j))).takeWhile
        (fun j => decide (j < bhi))
    let r := dpGo prev i js (fun _ => 0) best
    dpRows a b blo bhi is r.1 r.2

/-- Backward extension loop of `find_longest_match` (non-junk elements; the
junk set is empty here).  Implemented with fuel `f`; the entry point passes
`f = besti`, which is exact: the loop body requires `alo < besti` and
decrements `besti` each iteration. -/
def extBackF (a b : List Char) (alo blo : Nat) :
    Nat → Nat × Nat × Nat → Nat × Nat × Nat
  | 0, p => p
  | f + 1, (bi, bj, bs) =>
    if alo < bi ∧ blo < bj ∧ nth a (bi - 1) = nth b (bj - 1) then
      extBackF a b alo blo f (bi - 1, bj - 1, bs + 1)
    else (bi, bj, bs)

/-- Forward extension loop of `find_longest_match`.  Fuel `f = ahi` suffices:
each iteration requires `besti + bestsize < ahi` and increments `bestsize`. -/
def extFwdF (a b : List Char) (ahi bhi : Nat) :
    Nat → Nat × Nat × Nat → Nat × Nat × Nat
  | 0, p => p
  | f + 1, (bi, bj, bs) =>
    if bi + bs < ahi ∧ bj + bs < bhi ∧ nth a (bi + bs) = nth b (bj + bs) then
      extFwdF a b ahi bhi f (bi, bj, bs + 1)
    else (bi, bj, bs)

/-- `find_longest_match(alo, ahi, blo, bhi)` of `difflib.SequenceMatcher`
(with empty junk set): dynamic programme plus the two extension loops. -/
def flm (a b : List Char) (alo ahi blo bhi : Nat) : Nat × Nat × Nat :=
  let seed := dpRows a b blo bhi (natRange alo (ahi - alo)) (fun _ => 0) (alo, blo, 0)
  let backd := extBackF a b alo blo seed.1 seed
  extFwdF a b ahi bhi ahi backd

/-- The recursive decomposition of `get_matching_blocks` (the source uses an
explicit work queue and then sorts; only the multiset of blocks — in fact
only the sum of their sizes — matters to `ratio`, and collapsing adjacent
blocks plus the `(la, lb, 0)` terminator do not change that sum, so they are
omitted).  `fuel` only needs to exceed the recursion depth; the entry point
passes `a.length + b.length + 1`, which suffices because each recursive call
strictly shrinks both the `a`-range and the `b`-range. -/
def mblocks (a b : List Char) : Nat → Nat → Nat → Nat → Nat → List (Nat × Nat × Nat)
  | 0, _, _, _, _ => []
  | fuel + 1, alo, ahi, blo, bhi =>
    let r := flm a b alo ahi blo bhi
    let i := r.1
    let j := r.2.1
    let k := r.2.2
    if k = 0 then []
    else
      (if alo < i ∧ blo < j then mblocks a b fuel alo i blo j else []) ++
        (i, j, k) ::
          (if i + k < ahi ∧ j + k < bhi then mblocks a b fuel (i + k) ahi (j + k) bhi else [])

/-- `matches`: total size of all matching blocks of `a` vs `b`. -/
def matchesTot (a b : List Char) : Nat :=
  ((mblocks a b (a.length + b.length + 1) 0 a.length 0 b.length).map
      (fun t => t.2.2)).sum

/-- `SequenceMatcher(None, a, b).ratio()`: `2 * matches / (len(a) + len(b))`,
and `1.0` when both strings are empty. -/
def ratioVal (a b : List Char) : ℚ :=
  if a.length + b.length = 0 then 1
  else mkRat (2 * matchesTot a b) (a.length + b.length)

/-! ## Word tokenisation (the `re.findall(r'\b\w+\b', text)` of the source)

A `\w`-token is a maximal run of word characters (ASCII letters, digits,
underscore — the texts of this repository are ASCII).  The separate pattern
`\b\d{3,}\b` used for number extraction matches exactly the all-digit tokens
of length at least 3: a word boundary cannot occur between two word
characters, so a digit run embedded in a longer token is never matched. -/

/-- Python `\w` on ASCII text. -/
def isWordChar (c : Char) : Bool := c.isAlphanum || c = '_'

/-- Accumulator-based splitter for `wordTokens`. -/
def wordTokensGo : List Char → List Char → List (List Char)
  | [], acc => if acc = [] then [] else [acc.reverse]
  | c :: rest, acc =>
    if isWordChar c then wordTokensGo rest (c :: acc)
    else if acc = [] then wordTokensGo rest []
    else acc.reverse :: wordTokensGo rest []

/-- `re.findall(r'\b\w+\b', s)`: the maximal word-character runs of `s`. -/
def wordTokens (s : List Char) : List (List Char) := wordTokensGo s []

/-- Convenience: a list of Lean string literals as Python strings. -/
def strs (l : List String) : List (List Char) := l.map String.toList

/-! ## `src/duplicate_detector.py` -/

namespace Detector

/-- The module-level `KEY_ENTITIES` set of `duplicate_detector.py`. -/
def KEY_ENTITIES : List (List Char) := strs
  ["angela", "scott", "hemant", "chirag", "leonardo", "leo", "sandeep",
   "love", "shiva", "joe", "jimmy", "kumar", "gabe",
   "sip trunk", "sip", "signal api", "screen pop", "azure", "speech keys",
   "bearer token", "mongodb", "cognigy", "nice", "cx1", "cxone",
   "intent", "uat", "csg", "cab", "arb",
   "800", "did", "p1", "p2", "p3", "p4", "p5", "p6", "p7", "p8", "p9", "p10",
   "provisioning", "timeline", "baseline", "walkthrough", "escalate",
   "configuration", "integration", "testing", "routing",
   "project plan", "action item", "project schedule", "documentation"]

/-- The module-level `PHRASES` list of `duplicate_detector.py`. -/
def PHRASES : List (List Char) := strs
  ["sip trunk", "signal api", "screen pop", "speech keys", "bearer token",
   "project plan", "project baseline", "project schedule", "action item",
   "800 number", "800 test", "test number", "phone number",
   "cab approval", "arb approval", "nice cx1", "nice platform",
   "igt sip", "azure speech"]

/-- `extract_key_terms` of `duplicate_detector.py`: phrases that occur as
substrings, single word tokens that are key entities, and all-digit tokens
of length ≥ 3. -/
def extract_key_terms (text : List Char) : Finset (List Char) :=
  if text = [] then ∅
  else
    let text_lower := lowerStr text
    let phraseTerms := (PHRASES.filter (fun p => isSub p text_lower)).toFinset
    let entityTerms :=
      ((wordTokens text_lower).filter (fun w => decide (w ∈ KEY_ENTITIES))).toFinset
    let numTerms :=
      ((wordTokens text_lower).filter
        (fun w => decide (3 ≤ w.length) && w.all Char.isDigit)).toFinset
    phraseTerms ∪ entityTerms ∪ numTerms

/-- `calculate_topic_overlap`: Jaccard similarity, shared-term count and the
shared-term set of two term sets (zero for an empty operand). -/
def calculate_topic_overlap (terms1 terms2 : Finset (List Char)) :
    ℚ × Nat × Finset (List Char) :=
  if terms1 = ∅ ∨ terms2 = ∅ then (0, 0, ∅)
  else
    let inter := terms1 ∩ terms2
    let uni := terms1 ∪ terms2
    let jaccard : ℚ := if uni.card ≠ 0 then mkRat inter.card uni.card else 0
    (jaccard, inter.card, inter)

/-- Which strategy of the `is_semantic_duplicate` cascade produced the
verdict (the source returns a formatted reason string; this tag abstracts
exactly its `HIGH/MEDIUM/TOPIC/CRITICAL` prefix, with `pfx` for the
`"HIGH: prefix match"` case and `noRule` for the `(False, None, 0.0)`
fall-through). -/
inductive Method where
  | highSim
  | pfx
  | medium
  | topic
  | critical
  | noRule
  deriving DecidableEq, Repr

/-- The critical-term vocabulary hardcoded in strategy 5 of
`is_semantic_duplicate`. -/
def criticalSet : Finset (List Char) :=
  (strs ["800 test", "800 number", "test number", "azure speech",
         "bearer token", "project baseline", "cab approval"]).toFinset

/-- The length-ratio guard of strategy 4: both texts within a 2× length
ratio (`0` when `text2` is empty, as in the source). -/
def lenRatioOk (text1 text2 : List Char) : Prop :=
  let len_ratio : ℚ :=
    if 0 < text2.length then mkRat text1.length text2.length else 0
  mkRat 1 2 ≤ len_ratio ∧ len_ratio ≤ 2

instance (text1 text2 : List Char) : Decidable (lenRatioOk text1 text2) := by
  unfold lenRatioOk; infer_instance

/-- The topic-overlap data of two (already lowercased) texts: Jaccard
similarity, shared-term count, shared-term set. -/
def overlapOf (text1 text2 : List Char) : ℚ × Nat × Finset (List Char) :=
  calculate_topic_overlap (extract_key_terms text1) (extract_key_terms text2)

/-- The strategy-2 condition of `is_semantic_duplicate`: identical first 50
characters (of the lowercased texts). -/
def pfxCond (text1 text2 : List Char) : Prop := text1.take 50 = text2.take 50

/-- The strategy-3 condition: medium similarity plus topic overlap. -/
def mediumCond (text1 text2 : List Char) (similarity st : ℚ) : Prop :=
  st ≤ similarity ∧ mkRat 3 10 ≤ (overlapOf text1 text2).1 ∧
    2 ≤ (overlapOf text1 text2).2.1

/-- The strategy-4 condition: very high topic overlap, with the
length-ratio guard. -/
def topicCond (text1 text2 : List Char) (tt : ℚ) (ms : Nat) : Prop :=
  tt ≤ (overlapOf text1 text2).1 ∧ ms ≤ (overlapOf text1 text2).2.1 ∧
    lenRatioOk text1 text2

/-- The strategy-5 condition: a shared critical term and at least two
shared terms. -/
def criticalCond (text1 text2 : List Char) : Prop :=
  (((overlapOf text1 text2).2.2 ∩ criticalSet)).Nonempty ∧
    2 ≤ (overlapOf text1 text2).2.1

instance (t1 t2 : List Char) : Decidable (pfxCond t1 t2) := by
  unfold pfxCond; infer_instance

instance (t1 t2 : List Char) (s st : ℚ) : Decidable (mediumCond t1 t2 s st) := by
  unfold mediumCond; infer_instance

instance (t1 t2 : List Char) (tt : ℚ) (ms : Nat) :
    Decidable (topicCond t1 t2 tt ms) := by
  unfold topicCond; infer_instance

instance (t1 t2 : List Char) : Decidable (criticalCond t1 t2) := by
  unfold criticalCond; infer_instance

/-- Strategies 2–5 of `is_semantic_duplicate` (everything after the
high-similarity early return): prefix match, medium similarity plus topic
overlap, topic overlap alone (the length-ratio guard of the source is an
inner `if` without an `else`, so its failure falls through to strategy 5),
and the critical-term match. -/
def restCascade (text1 text2 : List Char) (similarity st tt : ℚ) (ms : Nat) :
    Bool × Method × ℚ :=
  if pfxCond text1 text2 then (true, .pfx, 1)
  else if mediumCond text1 text2 similarity st then (true, .medium, similarity)
  else if topicCond text1 text2 tt ms then (true, .topic, (overlapOf text1 text2).1)
  else if criticalCond text1 text2 then (true, .critical, mkRat 7 10)
  else (false, .noRule, 0)

/-- `is_semantic_duplicate(item1, item2, similarity_threshold,
high_confidence_threshold, topic_threshold, min_shared_terms)`.
Strategy 1 (high text similarity) is checked first, exactly as in the
source; the remaining strategies are `restCascade`. -/
def is_semantic_duplicate (item1 item2 : List Char)
    (st : ℚ := mkRat 3 5) (hct : ℚ := mkRat 3 4) (tt : ℚ := mkRat 1 2)
    (ms : Nat := 3) :
    Bool × Method × ℚ :=
  let text1 := lowerStr item1
  let text2 := lowerStr item2
  let similarity := ratioVal text1 text2
  if hct ≤ similarity then (true, .highSim, similarity)
  else restCascade text1 text2 similarity st tt ms

end Detector

/-! ## `src/llm_duplicate_analyzer.py` -/

namespace LLMA

/-- The phrase list of `extract_key_terms` in `llm_duplicate_analyzer.py`
(phrases only; this module extracts no single-word entities or numbers). -/
def phrases : List (List Char) := strs
  ["sip trunk", "signal api", "screen pop", "speech keys", "bearer token",
   "project plan", "project baseline", "project schedule",
   "800 number", "800 test", "test number", "phone number",
   "cab approval", "arb approval", "nice cx1", "azure speech",
   "sip trunk timeline", "signal api configuration"]

/-- `extract_key_terms` of `llm_duplicate_analyzer.py`. -/
def extract_key_terms (text : List Char) : Finset (List Char) :=
  if text = [] then ∅
  else
    let text_lower := lowerStr text
    (phrases.filter (fun p => isSub p text_lower)).toFinset

/-- The `critical_terms` set of `quick_duplicate_check`. -/
def critical_terms : Finset (List Char) :=
  (strs ["800 test", "800 number", "test number", "azure speech",
         "bearer token", "project baseline", "cab approval"]).toFinset

/-- Which branch of `quick_duplicate_check` produced the answer (abstracting
the reason string of the source). -/
inductive QReason where
  | highSim
  | pfx
  | critical
  | needsLLM
  | sharedTerms
  | noMatch
  deriving DecidableEq, Repr

/-- `quick_duplicate_check(item1, item2)`: layers 1 and 2 of the analyzer.
The first component models the Python `True / None / False` result:
`some true` = likely duplicate, `none` = uncertain (needs LLM verification),
`some false` = no match. -/
def quick_duplicate_check (item1 item2 : List Char) :
    Option Bool × ℚ × QReason :=
  let text1 := lowerStr item1
  let text2 := lowerStr item2
  let similarity := ratioVal text1 text2
  if mkRat 4 5 ≤ similarity then (some true, similarity, .highSim)
  else if text1.take 50 = text2.take 50 then (some true, 1, .pfx)
  else
    let terms1 := extract_key_terms text1
    let terms2 := extract_key_terms text2
    let shared_critical := (terms1 ∩ terms2) ∩ critical_terms
    if shared_critical.Nonempty then (some true, mkRat 7 10, .critical)
    else if mkRat 1 2 ≤ similarity then (none, similarity, .needsLLM)
    else if 2 ≤ (terms1 ∩ terms2).card then (none, mkRat 2 5, .sharedTerms)
    else (some false, 0, .noMatch)

/-- The structured verdict parsed out of the judge's JSON answer
(`json.loads` plus the `.get(..., default)` accesses of the caller are
abstracted into one parsing function producing this record; the free-text
`reasoning` field plays no role in any decision and is omitted). -/
structure LLMResult where
  is_duplicate : Bool
  confidence : ℚ
  recommendation : List Char
  deriving DecidableEq, Repr

/-- Outcome of the escalation-service call in `llm_analyze_pair`: either the
request raised (network error, missing content, …) or it produced a
response text. -/
inductive ServiceOutcome where
  | err
  | ok (responseText : List Char)
  deriving DecidableEq, Repr

/-- Python `str.strip()` (whitespace at both ends). -/
def pyStrip (s : List Char) : List Char :=
  ((s.dropWhile Char.isWhitespace).reverse.dropWhile Char.isWhitespace).reverse

/-- `s.split(sep)` for a non-empty separator, accumulator-based with fuel;
fuel `s.length + 1` always suffices because every step consumes at least one
character of `s`. -/
def splitOnF (sep : List Char) : Nat → List Char → List Char → List (List Char)
  | 0, s, acc => [acc.reverse ++ s]
  | f + 1, s, acc =>
    match s with
    | [] => [acc.reverse]
    | c :: rest =>
      if isPre sep (c :: rest) then
        acc.reverse :: splitOnF sep f (List.drop sep.length (c :: rest)) []
      else splitOnF sep f rest (c :: acc)

/-- Python `s.split(sep)` (non-empty `sep`). -/
def splitOn (sep s : List Char) : List (List Char) := splitOnF sep (s.length + 1) s []

/-- The code-fence stripping of `llm_analyze_pair`: take the part after
```` ```json ```` (or after the first ```` ``` ````) up to the next fence,
then strip whitespace. -/
def extractJsonStr (s : List Char) : List Char :=
  if isSub "```json".toList s then
    pyStrip ((splitOn "```".toList ((splitOn "```json".toList s).getD 1 [])).getD 0 [])
  else if isSub "```".toList s then
    pyStrip ((splitOn "```".toList ((splitOn "```".toList s).getD 1 [])).getD 0 [])
  else pyStrip s

/-- The fail-safe verdict built in the `except` handler of
`llm_analyze_pair`: not a duplicate, confidence 0, recommendation
`keep_both`. -/
def failSafe : LLMResult :=
  { is_duplicate := false, confidence := 0, recommendation := "keep_both".toList }

/-- `llm_analyze_pair`: call the judge, strip code fences, parse.  The
external service and JSON parser are abstracted: `outcome` is what the
service call did, and `loads` is the structured parser (returning `none`
when `json.loads` would raise).  Any raising path of the source — service
error or parse error — lands in the `except Exception` handler, which
returns `failSafe`; the embedding is total, modelling that no exception
escapes. -/
def llm_analyze_pair (loads : List Char → Option LLMResult)
    (outcome : ServiceOutcome) : LLMResult :=
  match outcome with
  | .err => failSafe
  | .ok t =>
    match loads (extractJsonStr t) with
    | some r => r
    | none => failSafe

/-- The `method` tag of `analyze_pair_full`'s result. -/
inductive AMethod where
  | logic
  | llm
  | logicUncertain
  deriving DecidableEq, Repr

/-- The result record of `analyze_pair_full`. -/
structure FullResult where
  is_duplicate : Bool
  confidence : ℚ
  method : AMethod
  recommendation : List Char
  deriving DecidableEq, Repr

/-- `analyze_pair_full(item1, item2, use_llm)`: quick check first; a
definite quick answer is final (method `logic`); an uncertain quick answer
is escalated to the judge when `use_llm` is set, and otherwise falls back to
the conservative `review_manually` answer. -/
def analyze_pair_full (loads : List Char → Option LLMResult)
    (outcome : ServiceOutcome) (item1 item2 : List Char) (use_llm : Bool) :
    FullResult :=
  let q := quick_duplicate_check item1 item2
  match q.1 with
  | some true =>
    { is_duplicate := true, confidence := q.2.1, method := .logic,
      recommendation := "mark_duplicate".toList }
  | some false =>
    { is_duplicate := false, confidence := 0, method := .logic,
      recommendation := "keep_both".toList }
  | none =>
    if use_llm then
      let lr := llm_analyze_pair loads outcome
      { is_duplicate := lr.is_duplicate, confidence := lr.confidence,
        method := .llm, recommendation := lr.recommendation }
    else
      { is_duplicate := false, confidence := q.2.1, method := .logicUncertain,
        recommendation := "review_manually".toList }

end LLMA

/-! ## Log entries and the date-based original/duplicate designation -/

/-- A log entry as extracted from a sheet row (`extract_items` /
`validate_all_rows`): row number, opaque row id, action text, status and
logged date (empty string when the cell is blank). -/
structure Item where
  row : Nat
  row_id : Nat
  action : List Char
  status : List Char
  date : List Char
  deriving DecidableEq, Repr, Inhabited

/-- `item.get('date', '') or '0000-00-00'`: the effective comparison date,
with the falsy empty string replaced by the minimal sentinel. -/
def effDate (d : List Char) : List Char :=
  if d = [] then "0000-00-00".toList else d

/-- The date-based designation shared by `find_all_duplicates`
(`duplicate_detector.py`) and pass 1 of `find_duplicates`
(`cleanup_duplicates.py`): the item whose effective date is
lexicographically `<=` the other's is the original, the other the
duplicate.  Returns `(original, duplicate)`. -/
def designateByDate (item1 item2 : Item) : Item × Item :=
  if pyStrLe (effDate item1.date) (effDate item2.date) then (item1, item2)
  else (item2, item1)

namespace Detector

/-- The resolved statuses skipped by `find_all_duplicates` (the literal list
appearing twice in the source). -/
def handledStatuses : List (List Char) := strs
  ["duplicate", "completed", "complete", "done", "cancelled", "canceled",
   "moved to backlog"]

/-- A reported duplicate pair of `find_all_duplicates`. -/
structure DupPair where
  duplicate : Item
  original : Item
  method : Method
  confidence : ℚ
  deriving DecidableEq, Repr

/-- `find_all_duplicates(items, existing_items)`.  Mirrors the source's
index arithmetic: with `existing_items` absent (or empty, which Python's
truthiness treats the same way) the comparison list is `items` itself and
the inner loop starts at `i + 1`; with a non-empty `existing_items` the
inner loop runs over all of it.  Entries with a resolved status are skipped
on both sides.  The pair is oriented by `designateByDate`. -/
def find_all_duplicates (items : List Item) (existing : Option (List Item)) :
    List DupPair :=
  let check_against := match existing with
    | some l => if l = [] then items else l
    | none => items
  (natRange 0 items.length).flatMap (fun i =>
    let item1 := items.getD i default
    if lowerStr item1.status ∈ handledStatuses then []
    else
      let start_j := match existing with
        | some l => if l = [] then i + 1 else 0
        | none => i + 1
      (natRange start_j (check_against.length - start_j)).filterMap (fun j =>
        let item2 := check_against.getD j default
        if lowerStr item2.status ∈ handledStatuses then none
        else
          let v := is_semantic_duplicate item1.action item2.action
          if v.1 then
            let od := designateByDate item1 item2
            some { duplicate := od.2, original := od.1,
                   method := v.2.1, confidence := v.2.2 }
          else none))

end Detector

/-! ## `src/cleanup_duplicates.py` -/

namespace Cleanup

/-- `ALREADY_HANDLED` of `cleanup_duplicates.py`. -/
def ALREADY_HANDLED : List (List Char) := strs
  ["duplicate", "completed", "complete", "done", "cancelled", "canceled",
   "moved to backlog"]

/-- `CRITICAL_TERMS` of `cleanup_duplicates.py`. -/
def CRITICAL_TERMS : Finset (List Char) :=
  (strs ["800 test", "800 number", "test number", "phone number",
         "azure speech", "speech keys",
         "bearer token",
         "project baseline",
         "cab approval",
         "signal api configuration",
         "sip trunk timeline"]).toFinset

/-- `KEY_PHRASES` of `cleanup_duplicates.py`. -/
def KEY_PHRASES : List (List Char) := strs
  ["sip trunk", "signal api", "screen pop", "speech keys", "bearer token",
   "project plan", "project baseline", "project schedule", "action item",
   "800 number", "800 test", "test number", "phone number",
   "cab approval", "arb approval", "nice cx1", "nice platform",
   "azure speech", "signal api configuration", "sip trunk timeline"]

/-- `extract_key_terms` of `cleanup_duplicates.py` (phrases only). -/
def extract_key_terms (text : List Char) : Finset (List Char) :=
  if text = [] then ∅
  else
    let text_lower := lowerStr text
    (KEY_PHRASES.filter (fun p => isSub p text_lower)).toFinset

/-- Which strategy of `check_pair_is_duplicate` fired (abstracting the
reason string; `noMatch` for the fall-through, where the source leaves
`reason = ''`). -/
inductive CReason where
  | sim
  | pfx
  | critical
  | noMatch
  deriving DecidableEq, Repr

/-- `check_pair_is_duplicate(text1, text2)` (the caller passes lowercased
texts): high similarity at `DUPLICATE_THRESHOLD = 0.75`, else prefix match
(which also sets the returned ratio to `1.0`), else shared critical terms —
but only together with similarity ≥ 0.55.  Returns
`(is_dup, reason, ratio)`. -/
def check_pair_is_duplicate (text1 text2 : List Char) : Bool × CReason × ℚ :=
  let r := ratioVal text1 text2
  if mkRat 3 4 ≤ r then (true, .sim, r)
  else if text1.take 50 = text2.take 50 then (true, .pfx, 1)
  else
    let terms1 := extract_key_terms text1
    let terms2 := extract_key_terms text2
    let shared_critical := (terms1 ∩ terms2) ∩ CRITICAL_TERMS
    if shared_critical.Nonempty ∧ mkRat 11 20 ≤ r then (true, .critical, r)
    else (false, .noMatch, r)

/-- A reported pair of `find_duplicates`; `ofCompleted` records the
`"... (of COMPLETED item)"` suffix appended to the reason by pass 2. -/
structure CPair where
  duplicate : Item
  original : Item
  reason : CReason
  ofCompleted : Bool
  deriving DecidableEq, Repr

/-- The state threaded through `find_duplicates`: the `duplicate_row_ids`
set and the accumulated `duplicates` list. -/
abbrev ScanState := Finset Nat × List CPair

/-- Pass 1 of `find_duplicates`: every active item against every later
active item.  Note the faithful placement of the guards: `item1`'s
membership in `duplicate_row_ids` is tested once, before the inner loop,
exactly as in the source. -/
def pass1 (active : List Item) : ScanState :=
  (natRange 0 active.length).foldl (fun st i =>
    let item1 := active.getD i default
    if item1.row_id ∈ st.1 then st
    else
      (natRange (i + 1) (active.length - (i + 1))).foldl (fun st j =>
        let item2 := active.getD j default
        if item2.row_id ∈ st.1 then st
        else
          let v := check_pair_is_duplicate (lowerStr item1.action)
            (lowerStr item2.action)
          if v.1 then
            let od := designateByDate item1 item2
            (insert od.2.row_id st.1,
              st.2 ++ [{ duplicate := od.2, original := od.1,
                         reason := v.2.1, ofCompleted := false }])
          else st) st) (∅, [])

/-- Pass 2 of `find_duplicates`: each still-unflagged active item against
the completed items; on the first match the active item is flagged as the
duplicate (the completed item is the original, regardless of dates) and the
inner loop breaks. -/
def pass2 (active completed : List Item) (st0 : ScanState) : ScanState :=
  active.foldl (fun st a =>
    if a.row_id ∈ st.1 then st
    else
      match completed.find? (fun c =>
          (check_pair_is_duplicate (lowerStr a.action) (lowerStr c.action)).1) with
      | some c =>
        (insert a.row_id st.1,
          st.2 ++ [{ duplicate := a, original := c,
                     reason := (check_pair_is_duplicate (lowerStr a.action)
                       (lowerStr c.action)).2.1,
                     ofCompleted := true }])
      | none => st) st0

/-- `find_duplicates(items)`: split into active and completed items, run
pass 1 then pass 2, return the accumulated pairs. -/
def find_duplicates (items : List Item) : List CPair :=
  let active := items.filter (fun it =>
    decide (lowerStr it.status ∉ ALREADY_HANDLED))
  let completed := items.filter (fun it =>
    decide (lowerStr it.status ∈ strs ["completed", "complete", "done"]))
  (pass2 active completed (pass1 active)).2

end Cleanup

/-! ## The chain-length semantics of the dynamic programme on `a` vs `a`

`vSelf a i j` is the mathematical value of the `j2len` cell computed at row
`i`, column `j`, when the matcher compares `a` with itself over the full
ranges: the length of the seeded match chain ending at `(i, j)`.  It is used
to prove that the best seed found on `a` vs `a` always lies on the diagonal,
which drives the identity property `ratio(a, a) = 1`. -/

/-- Does the dynamic programme visit column `j` in row `i` (when comparing
`a` with itself over full ranges)?  Exactly membership of `j` in the pruned
occurrence list `b2j a a[i]`. -/
def seedCond (a : List Char) (i j : Nat) : Prop := j ∈ b2j a (nth a i)

instance (a : List Char) (i j : Nat) : Decidable (seedCond a i j) := by
  unfold seedCond; infer_instance

/-- Cell values of the dynamic programme on `a` vs `a`, full ranges. -/
def vSelf (a : List Char) : Nat → Nat → Nat
  | 0, j => if seedCond a 0 j then 1 else 0
  | i + 1, 0 => if seedCond a (i + 1) 0 then 1 else 0
  | i + 1, j + 1 => if seedCond a (i + 1) (j + 1) then vSelf a i j + 1 else 0

/-! ## Concrete test vectors -/

namespace Vec

/-- 50 pairwise distinct characters (a 50-character common prefix). -/
def p50 : List Char := "abcdefghijklmnopqrstuvwxyz0123456789.,;:-_+=/?!@#$".toList

/-- `p50` followed by `!!`. -/
def s1 : List Char := p50 ++ "!!".toList

/-- `p50` followed by `??`. -/
def s2 : List Char := p50 ++ "??".toList

/-- A text carrying the critical terms `800 test` and `bearer token`. -/
def t800a : List Char := "800 test bearer token".toList

/-- `t800a` padded with 36 `z`s: similarity `42/79 < 0.55`. -/
def t800b : List Char := t800a ++ (' ' :: List.replicate 36 'z')

/-- `t800a` padded with 20 `z`s: similarity `42/63 = 2/3 ∈ [0.55, 0.75)`. -/
def t800c : List Char := t800a ++ (' ' :: List.replicate 20 'z')

/-- First member of the repository's own first test pair. -/
def angela1 : List Char :=
  "Angela 800 Number and UAT Status - Review Angela email for 800 test number".toList

/-- Second member of the repository's own first test pair. -/
def angela2 : List Char :=
  "Confirming the DID count for the 800 test number".toList

/-- Similarity exactly 1/2 against `simB`, no shared terms. -/
def simA : List Char := "aaaabbbb".toList

/-- Similarity exactly 1/2 against `simA`, no shared terms. -/
def simB : List Char := "aaaacccc".toList

/-- `ratio` asymmetry witness, first argument order: `3/4`. -/
def asymA : List Char := "aba".toList

/-- `ratio` asymmetry witness: `ratio(asymB, asymA) = 1/2`. -/
def asymB : List Char := "babba".toList

/-- Active item, latest date, text `x`. -/
def it1 : Item :=
  { row := 1, row_id := 1, action := "x".toList, status := [],
    date := "2025-03-01".toList }

/-- Active item, earliest date, text `x`. -/
def it2 : Item :=
  { row := 2, row_id := 2, action := "x".toList, status := [],
    date := "2025-01-01".toList }

/-- Active item, middle date, text `x`. -/
def it3 : Item :=
  { row := 3, row_id := 3, action := "x".toList, status := [],
    date := "2025-02-01".toList }

/-- An active item dated *before* `cmp1`. -/
def act1 : Item :=
  { row := 1, row_id := 10, action := "x".toList, status := [],
    date := "2025-01-02".toList }

/-- A completed item dated *after* `act1`, same text. -/
def cmp1 : Item :=
  { row := 2, row_id := 20, action := "x".toList, status := "Completed".toList,
    date := "2025-06-01".toList }

end Vec


/-! # Theorems

First a few general-purpose lemmas about the string utilities, then the
claims C1–C10 in numerical order (each claim's theorem carries its id). -/

theorem mem_natRange {s n j : Nat} : j ∈ natRange s n ↔ s ≤ j ∧ j < s + n := by
  induction n generalizing s with
  | zero => simp only [natRange, List.not_mem_nil, false_iff]; omega
  | succ n ih => simp only [natRange, List.mem_cons, ih]; omega

theorem pyStrLe_total (x y : List Char) :
    pyStrLe x y = true ∨ pyStrLe y x = true := by
  induction x generalizing y with
  | nil => left; rfl
  | cons c s ih =>
    cases y with
    | nil => right; rfl
    | cons d t =>
      by_cases h1 : c.toNat < d.toNat
      · left; simp [pyStrLe, h1]
      · by_cases h2 : d.toNat < c.toNat
        · right; simp [pyStrLe, h1, h2]
        · rcases ih t with h | h
          · left; simpa [pyStrLe, h1, h2] using h
          · right; simpa [pyStrLe, h1, h2] using h

theorem pyStrLe_antisymm {x y : List Char} (hxy : pyStrLe x y = true)
    (hyx : pyStrLe y x = true) : x = y := by
  induction x generalizing y with
  | nil =>
    cases y with
    | nil => rfl
    | cons d t => simp [pyStrLe] at hyx
  | cons c s ih =>
    cases y with
    | nil => simp [pyStrLe] at hxy
    | cons d t =>
      by_cases h1 : c.toNat < d.toNat
      · exfalso
        have : ¬ d.toNat < c.toNat := by omega
        simp [pyStrLe, this, Nat.lt_irrefl, h1] at hyx
      · by_cases h2 : d.toNat < c.toNat
        · exfalso; simp [pyStrLe, h1, h2] at hxy
        · have hc : c = d :=
            Char.eq_of_val_eq (UInt32.toNat.inj (show c.toNat = d.toNat by omega))
          subst hc
          simp only [pyStrLe, h1, if_neg h1, if_neg h2] at hxy hyx
          rw [ih hxy hyx]

theorem designateByDate_le (A B : Item) :
    pyStrLe (effDate (designateByDate A B).1.date)
      (effDate (designateByDate A B).2.date) = true := by
  unfold designateByDate
  by_cases h : pyStrLe (effDate A.date) (effDate B.date) = true
  · simp [h]
  · rcases pyStrLe_total (effDate A.date) (effDate B.date) with h' | h'
    · exact absurd h' h
    · simp [h, h']

theorem designateByDate_comm {A B : Item}
    (h : effDate A.date ≠ effDate B.date) :
    designateByDate A B = designateByDate B A := by
  unfold designateByDate
  by_cases hab : pyStrLe (effDate A.date) (effDate B.date) = true
  · have : ¬ pyStrLe (effDate B.date) (effDate A.date) = true := by
      intro hba
      exact h (pyStrLe_antisymm hab hba)
    simp [hab, this]
  · rcases pyStrLe_total (effDate A.date) (effDate B.date) with h' | h'
    · exact absurd h' hab
    · simp [hab, h']

set_option maxRecDepth 100000

/-- C1.  The claim says the prefix rule is checked first and wins even when
the high-similarity rule also applies, yielding confidence 1.0 and method
`prefix`.  Counterexample: `s1` and `s2` share their (lowercased) first 50
characters and have similarity `25/26 ≥ 3/4`, yet `is_semantic_duplicate`
returns the verdict of the high-similarity strategy — method `highSim` and
confidence `25/26 ≠ 1`. -/
theorem C1_counterexample :
    Detector.pfxCond (lowerStr Vec.s1) (lowerStr Vec.s2) ∧
    mkRat 3 4 ≤ ratioVal (lowerStr Vec.s1) (lowerStr Vec.s2) ∧
    Detector.is_semantic_duplicate Vec.s1 Vec.s2 =
      (true, Detector.Method.highSim, mkRat 25 26) ∧
    Detector.Method.highSim ≠ Detector.Method.pfx ∧
    (mkRat 25 26 : ℚ) ≠ 1 := by decide

/-- C1 (amended).  The cascade applies the high-similarity rule *before*
the prefix rule: on a pair with identical lowercased 50-character prefixes,
`is_semantic_duplicate` returns the high-similarity verdict (confidence =
the similarity score) whenever the similarity clears the high threshold, and
the prefix verdict (duplicate, confidence 1.0) only when it does not; the
same ordering holds in `quick_duplicate_check` with its 0.80 threshold. -/
theorem C1_rule_order (t1 t2 : List Char) (st hct tt : ℚ) (ms : Nat)
    (hpfx : Detector.pfxCond (lowerStr t1) (lowerStr t2)) :
    (hct ≤ ratioVal (lowerStr t1) (lowerStr t2) →
      Detector.is_semantic_duplicate t1 t2 st hct tt ms =
        (true, Detector.Method.highSim, ratioVal (lowerStr t1) (lowerStr t2))) ∧
    (ratioVal (lowerStr t1) (lowerStr t2) < hct →
      Detector.is_semantic_duplicate t1 t2 st hct tt ms =
        (true, Detector.Method.pfx, 1)) ∧
    (mkRat 4 5 ≤ ratioVal (lowerStr t1) (lowerStr t2) →
      LLMA.quick_duplicate_check t1 t2 =
        (some true, ratioVal (lowerStr t1) (lowerStr t2), LLMA.QReason.highSim)) ∧
    (ratioVal (lowerStr t1) (lowerStr t2) < mkRat 4 5 →
      LLMA.quick_duplicate_check t1 t2 = (some true, 1, LLMA.QReason.pfx)) := by
  refine ⟨fun h => ?_, fun h => ?_, fun h => ?_, fun h => ?_⟩
  · simp only [Detector.is_semantic_duplicate]
    rw [if_pos h]
  · simp only [Detector.is_semantic_duplicate, Detector.restCascade]
    rw [if_neg (not_le.mpr h), if_pos hpfx]
  · simp only [LLMA.quick_duplicate_check]
    rw [if_pos h]
  · simp only [LLMA.quick_duplicate_check]
    rw [if_neg (not_le.mpr h), if_pos (show (lowerStr t1).take 50 = (lowerStr t2).take 50 from hpfx)]

/-- Witness for C1 (amended) at the concrete pair `s1`, `s2`. -/
theorem C1_rule_order_witness :
    Detector.is_semantic_duplicate Vec.s1 Vec.s2 (mkRat 3 5) (mkRat 3 4)
        (mkRat 1 2) 3 =
      (true, Detector.Method.highSim, ratioVal (lowerStr Vec.s1) (lowerStr Vec.s2)) :=
  (C1_rule_order Vec.s1 Vec.s2 (mkRat 3 5) (mkRat 3 4) (mkRat 1 2) 3
    (by decide)).1 (by decide)

/-- C3.  The escalation adapter fails safe: a service exception, or a
response whose (fence-stripped) body the JSON parser rejects, yields the
verdict `is_duplicate = false`, `confidence = 0`, recommendation
`keep_both`; the embedding is a total function, reflecting that the
source's `except Exception` handler lets no exception escape. -/
theorem C3_fail_safe :
    (∀ loads, LLMA.llm_analyze_pair loads .err = LLMA.failSafe) ∧
    (∀ loads t, loads (LLMA.extractJsonStr t) = none →
      LLMA.llm_analyze_pair loads (.ok t) = LLMA.failSafe) ∧
    LLMA.failSafe.is_duplicate = false ∧
    LLMA.failSafe.confidence = 0 ∧
    LLMA.failSafe.recommendation = "keep_both".toList := by
  refine ⟨fun _ => rfl, fun loads t h => ?_, rfl, rfl, rfl⟩
  simp only [LLMA.llm_analyze_pair, h]

/-- Witness for C3: a parser that rejects everything still produces the
fail-safe verdict rather than an error. -/
theorem C3_fail_safe_witness :
    LLMA.llm_analyze_pair (fun _ => none)
      (.ok "the judge failed to answer in JSON".toList) = LLMA.failSafe :=
  C3_fail_safe.2.1 (fun _ => none) _ rfl

/-- C10.  In `cleanup_duplicates.find_duplicates`, a row is supposed to be
reported as the designated duplicate at most once (the code tracks
`duplicate_row_ids` "to avoid marking same item multiple times").  But the
flag on the *outer* item is only tested before the inner loop starts: when
`item1` itself is designated the duplicate (its date is later), the inner
loop keeps comparing the already-flagged `item1`, which is then reported as
the duplicate again.  With three identical active items dated 03-01, 01-01,
02-01, row 1 is reported as the duplicate of row 2 and again of row 3. -/
theorem C10_duplicate_reflagged :
    (Cleanup.find_duplicates [Vec.it1, Vec.it2, Vec.it3]).map
        (fun p => (p.duplicate.row_id, p.original.row_id)) =
      [(1, 2), (1, 3), (3, 2)] ∧
    2 ≤ (Cleanup.find_duplicates [Vec.it1, Vec.it2, Vec.it3]).countP
        (fun p => p.duplicate.row_id == 1) := by decide

/-- C2.  The similarity scorer is *not* symmetric: on `aba` vs `babba` the
greedy matcher finds 3 matched characters (ratio `3/4`) but on `babba` vs
`aba` only 2 (ratio `1/2`). -/
theorem C2_counterexample :
    ratioVal Vec.asymA Vec.asymB = mkRat 3 4 ∧
    ratioVal Vec.asymB Vec.asymA = mkRat 1 2 ∧
    ratioVal Vec.asymA Vec.asymB ≠ ratioVal Vec.asymB Vec.asymA := by decide

/-- C6.  The claim asserts that (when no earlier rule matched) a shared
critical term plus shared-term count ≥ 2 yields a duplicate verdict with
confidence ≈ 0.7 in every classifier.  Counterexample against
`cleanup_duplicates.check_pair_is_duplicate`: the texts share the critical
terms `800 test` and `bearer token` (shared count 2) and match no earlier
rule, yet the verdict is *not duplicate*, because this classifier's
critical-term strategy additionally requires similarity ≥ 0.55 and the
pair's similarity is `42/79 < 0.55`. -/
theorem C6_counterexample :
    ((Cleanup.extract_key_terms Vec.t800a ∩ Cleanup.extract_key_terms Vec.t800b) ∩
        Cleanup.CRITICAL_TERMS).Nonempty ∧
    2 ≤ ((Cleanup.extract_key_terms Vec.t800a) ∩ (Cleanup.extract_key_terms Vec.t800b)).card ∧
    ratioVal Vec.t800a Vec.t800b < mkRat 3 4 ∧
    Vec.t800a.take 50 ≠ Vec.t800b.take 50 ∧
    Cleanup.check_pair_is_duplicate Vec.t800a Vec.t800b =
      (false, Cleanup.CReason.noMatch, mkRat 42 79) := by decide

/-- C6 (amended).  The critical-term rule behaves as claimed in
`is_semantic_duplicate` (confidence exactly 0.7) and in
`quick_duplicate_check` (where one shared critical term suffices, with no
shared-count requirement); in `cleanup_duplicates.check_pair_is_duplicate`
the rule additionally requires similarity ≥ 0.55 and reports the similarity
ratio, not 0.7, as the score. -/
theorem C6_critical_rule :
    (∀ t1 t2 : List Char, ∀ st hct tt : ℚ, ∀ ms : Nat,
      ratioVal (lowerStr t1) (lowerStr t2) < hct →
      ¬ Detector.pfxCond (lowerStr t1) (lowerStr t2) →
      ¬ Detector.mediumCond (lowerStr t1) (lowerStr t2)
          (ratioVal (lowerStr t1) (lowerStr t2)) st →
      ¬ Detector.topicCond (lowerStr t1) (lowerStr t2) tt ms →
      Detector.criticalCond (lowerStr t1) (lowerStr t2) →
      Detector.is_semantic_duplicate t1 t2 st hct tt ms =
        (true, Detector.Method.critical, mkRat 7 10)) ∧
    (∀ t1 t2 : List Char,
      ratioVal (lowerStr t1) (lowerStr t2) < mkRat 4 5 →
      ¬ ((lowerStr t1).take 50 = (lowerStr t2).take 50) →
      (((LLMA.extract_key_terms (lowerStr t1) ∩ LLMA.extract_key_terms (lowerStr t2)) ∩
          LLMA.critical_terms)).Nonempty →
      LLMA.quick_duplicate_check t1 t2 =
        (some true, mkRat 7 10, LLMA.QReason.critical)) ∧
    (∀ t1 t2 : List Char,
      ratioVal t1 t2 < mkRat 3 4 →
      ¬ (t1.take 50 = t2.take 50) →
      (((Cleanup.extract_key_terms t1 ∩ Cleanup.extract_key_terms t2) ∩
          Cleanup.CRITICAL_TERMS)).Nonempty →
      mkRat 11 20 ≤ ratioVal t1 t2 →
      Cleanup.check_pair_is_duplicate t1 t2 =
        (true, Cleanup.CReason.critical, ratioVal t1 t2)) := by
  refine ⟨fun t1 t2 st hct tt ms h1 h2 h3 h4 h5 => ?_,
    fun t1 t2 h1 h2 h3 => ?_, fun t1 t2 h1 h2 h3 h4 => ?_⟩
  · simp only [Detector.is_semantic_duplicate, Detector.restCascade]
    rw [if_neg (not_le.mpr h1), if_neg h2, if_neg h3, if_neg h4, if_pos h5]
  · simp only [LLMA.quick_duplicate_check]
    rw [if_neg (not_le.mpr h1), if_neg h2, if_pos h3]
  · simp only [Cleanup.check_pair_is_duplicate]
    rw [if_neg (not_le.mpr h1), if_neg h2, if_pos ⟨h3, h4⟩]

/-- Witness for C6 (amended): the repository's own first test pair fires
the critical-term rule in `is_semantic_duplicate` and in
`quick_duplicate_check`; `t800a`/`t800c` (similarity `2/3 ∈ [0.55, 0.75)`)
fires it in `check_pair_is_duplicate`. -/
theorem C6_critical_rule_witness :
    Detector.is_semantic_duplicate Vec.angela1 Vec.angela2 (mkRat 3 5)
        (mkRat 3 4) (mkRat 1 2) 3 =
      (true, Detector.Method.critical, mkRat 7 10) ∧
    LLMA.quick_duplicate_check Vec.angela1 Vec.angela2 =
      (some true, mkRat 7 10, LLMA.QReason.critical) ∧
    Cleanup.check_pair_is_duplicate Vec.t800a Vec.t800c =
      (true, Cleanup.CReason.critical, ratioVal Vec.t800a Vec.t800c) :=
  ⟨C6_critical_rule.1 Vec.angela1 Vec.angela2 (mkRat 3 5) (mkRat 3 4)
      (mkRat 1 2) 3 (by decide) (by decide) (by decide) (by decide) (by decide),
   C6_critical_rule.2.1 Vec.angela1 Vec.angela2 (by decide) (by decide) (by decide),
   C6_critical_rule.2.2 Vec.t800a Vec.t800c (by decide) (by decide) (by decide)
     (by decide)⟩

/-- C7.  A pair matched by none of the quick rules (high similarity at
0.80, prefix, shared critical term) whose similarity reaches the ambiguous
band (≥ 0.50) or which shares at least two terms gets the uncertain answer
`None` from `quick_duplicate_check`, and `analyze_pair_full` with
escalation enabled hands exactly that pair to the judge: its verdict is the
escalation verdict, method `llm` — never a silent final answer. -/
theorem C7_uncertain_escalated (t1 t2 : List Char)
    (h1 : ratioVal (lowerStr t1) (lowerStr t2) < mkRat 4 5)
    (h2 : ¬ ((lowerStr t1).take 50 = (lowerStr t2).take 50))
    (h3 : ¬ (((LLMA.extract_key_terms (lowerStr t1) ∩
        LLMA.extract_key_terms (lowerStr t2)) ∩ LLMA.critical_terms)).Nonempty)
    (h4 : mkRat 1 2 ≤ ratioVal (lowerStr t1) (lowerStr t2) ∨
      2 ≤ ((LLMA.extract_key_terms (lowerStr t1)) ∩
        (LLMA.extract_key_terms (lowerStr t2))).card) :
    (LLMA.quick_duplicate_check t1 t2).1 = none ∧
    ∀ loads outcome,
      LLMA.analyze_pair_full loads outcome t1 t2 true =
        { is_duplicate := (LLMA.llm_analyze_pair loads outcome).is_duplicate,
          confidence := (LLMA.llm_analyze_pair loads outcome).confidence,
          method := LLMA.AMethod.llm,
          recommendation := (LLMA.llm_analyze_pair loads outcome).recommendation } := by
  have hq : (LLMA.quick_duplicate_check t1 t2).1 = none := by
    simp only [LLMA.quick_duplicate_check]
    rw [if_neg (not_le.mpr h1), if_neg h2, if_neg h3]
    by_cases h5 : mkRat 1 2 ≤ ratioVal (lowerStr t1) (lowerStr t2)
    · rw [if_pos h5]
    · rw [if_neg h5, if_pos (h4.resolve_left h5)]
  refine ⟨hq, fun loads outcome => ?_⟩
  simp only [LLMA.analyze_pair_full]
  rw [hq]
  simp

/-- Witness for C7 at `simA`/`simB` (similarity exactly 1/2, no shared
terms): uncertain, and escalated to a failing judge, which fails safe. -/
theorem C7_uncertain_escalated_witness :
    (LLMA.quick_duplicate_check Vec.simA Vec.simB).1 = none ∧
    LLMA.analyze_pair_full (fun _ => none) .err Vec.simA Vec.simB true =
      { is_duplicate := false, confidence := 0, method := LLMA.AMethod.llm,
        recommendation := "keep_both".toList } := by
  have h := C7_uncertain_escalated Vec.simA Vec.simB (by decide) (by decide)
    (by decide) (Or.inl (by decide))
  exact ⟨h.1, h.2 (fun _ => none) .err⟩

/-- C9.  Raising the high-similarity threshold above a pair's similarity
score never flips the verdict to not-duplicate by itself: with any
threshold strictly above the score, `is_semantic_duplicate` returns exactly
the verdict of the remaining cascade, and the verdict is `false` precisely
when the prefix, medium-similarity, topic-overlap and critical-term rules
all fail too. -/
theorem C9_threshold_monotone (t1 t2 : List Char) (st hct tt : ℚ) (ms : Nat)
    (h : ratioVal (lowerStr t1) (lowerStr t2) < hct) :
    Detector.is_semantic_duplicate t1 t2 st hct tt ms =
      Detector.restCascade (lowerStr t1) (lowerStr t2)
        (ratioVal (lowerStr t1) (lowerStr t2)) st tt ms ∧
    ((Detector.is_semantic_duplicate t1 t2 st hct tt ms).1 = true ↔
      (Detector.pfxCond (lowerStr t1) (lowerStr t2) ∨
       Detector.mediumCond (lowerStr t1) (lowerStr t2)
         (ratioVal (lowerStr t1) (lowerStr t2)) st ∨
       Detector.topicCond (lowerStr t1) (lowerStr t2) tt ms ∨
       Detector.criticalCond (lowerStr t1) (lowerStr t2))) := by
  have he : Detector.is_semantic_duplicate t1 t2 st hct tt ms =
      Detector.restCascade (lowerStr t1) (lowerStr t2)
        (ratioVal (lowerStr t1) (lowerStr t2)) st tt ms := by
    simp only [Detector.is_semantic_duplicate]
    rw [if_neg (not_le.mpr h)]
  refine ⟨he, ?_⟩
  rw [he]
  unfold Detector.restCascade
  split_ifs with h1 h2 h3 h4 <;> simp_all

/-- Witness for C9 on a zero-similarity pair with the default thresholds. -/
theorem C9_threshold_monotone_witness :
    Detector.is_semantic_duplicate "ab".toList "zz".toList (mkRat 3 5)
        (mkRat 3 4) (mkRat 1 2) 3 =
      Detector.restCascade (lowerStr "ab".toList) (lowerStr "zz".toList)
        (ratioVal (lowerStr "ab".toList) (lowerStr "zz".toList)) (mkRat 3 5)
        (mkRat 1 2) 3 :=
  (C9_threshold_monotone "ab".toList "zz".toList (mkRat 3 5) (mkRat 3 4)
    (mkRat 1 2) 3 (by decide)).1

theorem foldlInv {α β : Type _} {P : β → Prop} {f : β → α → β} {l : List α}
    {b : β} (hb : P b) (hstep : ∀ s, P s → ∀ a ∈ l, P (f s a)) :
    P (l.foldl f b) := by
  induction l generalizing b with
  | nil => exact hb
  | cons x xs ih =>
    exact ih (hstep b hb x (List.mem_cons_self x xs))
      (fun s hs a ha => hstep s hs a (List.mem_cons_of_mem x ha))

theorem getD_mem {α : Type _} {l : List α} {i : Nat} {d : α}
    (h : i < l.length) : l.getD i d ∈ l := by
  rw [List.getD_eq_getElem l d h]
  exact List.getElem_mem h

theorem designateByDate_cases (A B : Item) :
    designateByDate A B = (A, B) ∨ designateByDate A B = (B, A) := by
  unfold designateByDate
  split
  · exact Or.inl rfl
  · exact Or.inr rfl

theorem find_all_duplicates_shape {items : List Item}
    {existing : Option (List Item)} {p : Detector.DupPair}
    (hp : p ∈ Detector.find_all_duplicates items existing) :
    ∃ item1 item2 : Item,
      lowerStr item1.status ∉ Detector.handledStatuses ∧
      lowerStr item2.status ∉ Detector.handledStatuses ∧
      p.duplicate = (designateByDate item1 item2).2 ∧
      p.original = (designateByDate item1 item2).1 := by
  simp only [Detector.find_all_duplicates] at hp
  rw [List.mem_flatMap] at hp
  obtain ⟨i, hi, hp⟩ := hp
  split at hp
  · simp at hp
  · rw [List.mem_filterMap] at hp
    obtain ⟨j, hj, hp⟩ := hp
    split at hp
    · simp at hp
    · split at hp
      · rw [Option.some.injEq] at hp
        subst hp
        exact ⟨_, _, by assumption, by assumption, rfl, rfl⟩
      · simp at hp

theorem pass1_mem {active : List Item} {p : Cleanup.CPair}
    (hp : p ∈ (Cleanup.pass1 active).2) :
    p.duplicate ∈ active ∧ p.original ∈ active ∧
      pyStrLe (effDate p.original.date) (effDate p.duplicate.date) = true := by
  have main : ∀ q, q ∈ (Cleanup.pass1 active).2 →
      q.duplicate ∈ active ∧ q.original ∈ active ∧
        pyStrLe (effDate q.original.date) (effDate q.duplicate.date) = true := by
    unfold Cleanup.pass1
    refine foldlInv
      (P := fun st : Cleanup.ScanState => ∀ q, q ∈ st.2 →
        q.duplicate ∈ active ∧ q.original ∈ active ∧
          pyStrLe (effDate q.original.date) (effDate q.duplicate.date) = true)
      (fun q hq => by simp at hq) ?_
    intro s hs i hi
    dsimp only
    split
    · exact hs
    · refine foldlInv
        (P := fun st : Cleanup.ScanState => ∀ q, q ∈ st.2 →
          q.duplicate ∈ active ∧ q.original ∈ active ∧
            pyStrLe (effDate q.original.date) (effDate q.duplicate.date) = true)
        hs ?_
      intro s' hs' j hj
      dsimp only
      split
      · exact hs'
      · split
        · intro q hq
          rw [List.mem_append] at hq
          rcases hq with hq | hq
          · exact hs' q hq
          · rw [List.mem_singleton] at hq
            subst hq
            have hilt : i < active.length := by
              have := mem_natRange.mp hi; omega
            have hjlt : j < active.length := by
              have := mem_natRange.mp hj; omega
            refine ⟨?_, ?_, designateByDate_le _ _⟩
            · rcases designateByDate_cases (active.getD i default)
                  (active.getD j default) with h | h <;> rw [h] <;>
                exact getD_mem (by omega)
            · rcases designateByDate_cases (active.getD i default)
                  (active.getD j default) with h | h <;> rw [h] <;>
                exact getD_mem (by omega)
        · exact hs'
  exact main p hp

theorem pass2_mem {active completed : List Item} {st : Cleanup.ScanState}
    {p : Cleanup.CPair} (hp : p ∈ (Cleanup.pass2 active completed st).2) :
    p ∈ st.2 ∨ (p.duplicate ∈ active ∧ p.original ∈ completed ∧
      p.ofCompleted = true) := by
  have main : ∀ q, q ∈ (Cleanup.pass2 active completed st).2 →
      q ∈ st.2 ∨ (q.duplicate ∈ active ∧ q.original ∈ completed ∧
        q.ofCompleted = true) := by
    unfold Cleanup.pass2
    refine foldlInv
      (P := fun s : Cleanup.ScanState => ∀ q, q ∈ s.2 →
        q ∈ st.2 ∨ (q.duplicate ∈ active ∧ q.original ∈ completed ∧
          q.ofCompleted = true))
      (fun q hq => Or.inl hq) ?_
    intro s hs a ha
    dsimp only
    split
    · exact hs
    · split
      · intro q hq
        rw [List.mem_append] at hq
        rcases hq with hq | hq
        · exact hs q hq
        · rw [List.mem_singleton] at hq
          subst hq
          exact Or.inr ⟨ha, List.mem_of_find?_eq_some (by assumption), rfl⟩
      · exact hs
  exact main p hp

/-- C4.  The claim says that for *every* confirmed-duplicate pair the
earlier-or-equal-dated entry is designated original.  Counterexample: in
pass 2 of `cleanup_duplicates.find_duplicates` (active vs completed, the
cited lines) the completed item is the original regardless of dates: an
active item dated 2025-01-02 duplicating a completed item dated 2025-06-01
is reported with the *later*-dated entry as original. -/
theorem C4_counterexample :
    Cleanup.find_duplicates [Vec.act1, Vec.cmp1] =
      [{ duplicate := Vec.act1, original := Vec.cmp1,
         reason := Cleanup.CReason.sim, ofCompleted := true }] ∧
    Vec.act1.date ≠ [] ∧ Vec.cmp1.date ≠ [] ∧ Vec.act1.date ≠ Vec.cmp1.date ∧
    pyStrLe (effDate Vec.act1.date) (effDate Vec.cmp1.date) = true ∧
    ¬ pyStrLe (effDate Vec.cmp1.date) (effDate Vec.act1.date) = true := by
  decide

/-- C4 (amended).  Date-ordered designation holds (1) for every pair
reported by `find_all_duplicates` and (2) for every pair of the
active-vs-active pass of `find_duplicates`; (3) the designation helper
always puts the earlier-or-equal effective date on the original; (4) on
distinct effective dates it is order-insensitive (deterministic); (5) the
pairs added by pass 2 instead always have a completed item as original and
an active item as duplicate, regardless of dates. -/
theorem C4_date_designation :
    (∀ (items : List Item) (existing : Option (List Item))
        (p : Detector.DupPair), p ∈ Detector.find_all_duplicates items existing →
      pyStrLe (effDate p.original.date) (effDate p.duplicate.date) = true) ∧
    (∀ (active : List Item) (p : Cleanup.CPair), p ∈ (Cleanup.pass1 active).2 →
      pyStrLe (effDate p.original.date) (effDate p.duplicate.date) = true) ∧
    (∀ A B : Item, pyStrLe (effDate (designateByDate A B).1.date)
      (effDate (designateByDate A B).2.date) = true) ∧
    (∀ A B : Item, effDate A.date ≠ effDate B.date →
      designateByDate A B = designateByDate B A) ∧
    (∀ (active completed : List Item) (st : Cleanup.ScanState)
        (p : Cleanup.CPair), p ∈ (Cleanup.pass2 active completed st).2 →
      p ∈ st.2 ∨ (p.duplicate ∈ active ∧ p.original ∈ completed ∧
        p.ofCompleted = true)) := by
  refine ⟨?_, ?_, designateByDate_le, @designateByDate_comm, ?_⟩
  · intro items existing p hp
    obtain ⟨item1, item2, _, _, hd, ho⟩ := find_all_duplicates_shape hp
    rw [hd, ho]
    exact designateByDate_le item1 item2
  · intro active p hp
    exact (pass1_mem hp).2.2
  · intro active completed st p hp
    exact pass2_mem hp

/-- Witness for C4 (amended), instantiating part (1): for two identical
active texts dated 2025-03-01 and 2025-01-01, the reported original is the
earlier-dated one. -/
theorem C4_date_designation_witness :
    pyStrLe (effDate Vec.it2.date) (effDate Vec.it1.date) = true :=
  C4_date_designation.1 [Vec.it1, Vec.it2] none
    { duplicate := Vec.it1, original := Vec.it2,
      method := Detector.Method.highSim, confidence := 1 } (by decide)

/-- C5.  Resolved-status exemption: (1) pairs reported by
`find_all_duplicates` never involve an entry with a resolved status, on
either side; (2) pairs reported by `cleanup_duplicates.find_duplicates`
never designate a resolved entry as the duplicate; (3) completed-family
entries are still used as comparison targets for active entries — the
concrete run pairs an active entry (as duplicate) with a `Completed` entry
(as original). -/
theorem C5_resolved_exemption :
    (∀ (items : List Item) (existing : Option (List Item))
        (p : Detector.DupPair), p ∈ Detector.find_all_duplicates items existing →
      lowerStr p.duplicate.status ∉ Detector.handledStatuses ∧
      lowerStr p.original.status ∉ Detector.handledStatuses) ∧
    (∀ (items : List Item) (p : Cleanup.CPair), p ∈ Cleanup.find_duplicates items →
      lowerStr p.duplicate.status ∉ Cleanup.ALREADY_HANDLED) ∧
    (Cleanup.find_duplicates [Vec.act1, Vec.cmp1] =
      [{ duplicate := Vec.act1, original := Vec.cmp1,
         reason := Cleanup.CReason.sim, ofCompleted := true }] ∧
      lowerStr Vec.cmp1.status ∈ strs ["completed", "complete", "done"]) := by
  refine ⟨?_, ?_, by decide⟩
  · intro items existing p hp
    obtain ⟨item1, item2, h1, h2, hd, ho⟩ := find_all_duplicates_shape hp
    rcases designateByDate_cases item1 item2 with h | h <;>
      rw [hd, ho, h] <;> exact ⟨by assumption, by assumption⟩
  · intro items p hp
    simp only [Cleanup.find_duplicates] at hp
    have hdup : p.duplicate ∈ items.filter
        (fun it => decide (lowerStr it.status ∉ Cleanup.ALREADY_HANDLED)) := by
      rcases pass2_mem hp with h | h
      · exact (pass1_mem h).1
      · exact h.1
    have := (List.mem_filter.mp hdup).2
    simpa using this

/-- Witness for C5, instantiating part (2) on the concrete run: the
designated duplicate (the active entry) does not carry a resolved status. -/
theorem C5_resolved_exemption_witness :
    lowerStr Vec.act1.status ∉ Cleanup.ALREADY_HANDLED :=
  C5_resolved_exemption.2.1 [Vec.act1, Vec.cmp1]
    { duplicate := Vec.act1, original := Vec.cmp1,
      reason := Cleanup.CReason.sim, ofCompleted := true } (by decide)

/-! ### Range bounds for the matcher

Every block reported by `flm` lies inside the requested ranges, hence the
total matched size is at most each string's length and the ratio is a
normalized score in `[0, 1]`. -/

theorem dpGo_bounds {alo ahi blo bhi : Nat} (prev : Nat → Nat) (i : Nat)
    (hprev : ∀ j, prev j ≤ i - alo ∧ prev j ≤ j + 1 - blo)
    (hi : alo ≤ i) (hi2 : i < ahi) :
    ∀ (js : List Nat) (new : Nat → Nat) (best : Nat × Nat × Nat),
      (∀ j ∈ js, blo ≤ j ∧ j < bhi) →
      (∀ j, new j ≤ i + 1 - alo ∧ new j ≤ j + 1 - blo) →
      (alo ≤ best.1 ∧ blo ≤ best.2.1 ∧ best.1 + best.2.2 ≤ ahi ∧
        best.2.1 + best.2.2 ≤ bhi) →
      ((∀ j, (dpGo prev i js new best).1 j ≤ i + 1 - alo ∧
          (dpGo prev i js new best).1 j ≤ j + 1 - blo) ∧
       (alo ≤ (dpGo prev i js new best).2.1 ∧
        blo ≤ (dpGo prev i js new best).2.2.1 ∧
        (dpGo prev i js new best).2.1 + (dpGo prev i js new best).2.2.2 ≤ ahi ∧
        (dpGo prev i js new best).2.2.1 + (dpGo prev i js new best).2.2.2 ≤ bhi)) := by
  intro js
  induction js with
  | nil => intro new best _ hnew hbest; exact ⟨hnew, hbest⟩
  | cons j js ih =>
    intro new best hjs hnew hbest
    have hj := hjs j (List.mem_cons_self _ _)
    have hk : (if j = 0 then 0 else prev (j - 1)) + 1 ≤ i + 1 - alo ∧
        (if j = 0 then 0 else prev (j - 1)) + 1 ≤ j + 1 - blo := by
      by_cases hj0 : j = 0
      · rw [if_pos hj0]
        omega
      · rw [if_neg hj0]
        have := hprev (j - 1)
        omega
    simp only [dpGo]
    apply ih
    · exact fun x hx => hjs x (List.mem_cons_of_mem _ hx)
    · intro x
      by_cases hx : x = j
      · rw [if_pos hx]
        subst hx
        omega
      · rw [if_neg hx]
        exact hnew x
    · by_cases hlt : best.2.2 < (if j = 0 then 0 else prev (j - 1)) + 1
      · rw [if_pos hlt]
        refine ⟨?_, ?_, ?_, ?_⟩ <;> simp only <;> omega
      · rw [if_neg hlt]
        exact hbest

theorem dpRows_bounds {a b : List Char} {alo ahi blo bhi : Nat} :
    ∀ (rows : List Nat) (I : Nat) (prev : Nat → Nat) (best : Nat × Nat × Nat),
      rows = natRange I (ahi - I) → alo ≤ I →
      (∀ j, prev j ≤ I - alo ∧ prev j ≤ j + 1 - blo) →
      (alo ≤ best.1 ∧ blo ≤ best.2.1 ∧ best.1 + best.2.2 ≤ ahi ∧
        best.2.1 + best.2.2 ≤ bhi) →
      (alo ≤ (dpRows a b blo bhi rows prev best).1 ∧
       blo ≤ (dpRows a b blo bhi rows prev best).2.1 ∧
       (dpRows a b blo bhi rows prev best).1 +
         (dpRows a b blo bhi rows prev best).2.2 ≤ ahi ∧
       (dpRows a b blo bhi rows prev best).2.1 +
         (dpRows a b blo bhi rows prev best).2.2 ≤ bhi) := by
  intro rows
  induction rows with
  | nil => intro I prev best _ _ _ hbest; exact hbest
  | cons i is ih =>
    intro I prev best hrows hI hprev hbest
    have hm : ahi - I ≠ 0 := by
      intro h0; rw [h0] at hrows; exact List.noConfusion hrows
    obtain ⟨m, hm'⟩ : ∃ m, ahi - I = m + 1 := ⟨ahi - I - 1, by omega⟩
    rw [hm'] at hrows
    simp only [natRange] at hrows
    obtain ⟨hiI, his⟩ := List.cons.inj hrows
    subst hiI
    simp only [dpRows]
    have hjs : ∀ j ∈ ((b2j b (nth a i)).filter
        (fun j => decide (blo ≤ j))).takeWhile (fun j => decide (j < bhi)),
        blo ≤ j ∧ j < bhi := by
      intro j hjmem
      have h1 : j < bhi := by
        have := List.mem_takeWhile_imp hjmem
        simpa using this
      have h2 : j ∈ (b2j b (nth a i)).filter (fun j => decide (blo ≤ j)) :=
        (List.takeWhile_sublist _).mem hjmem
      have h3 : blo ≤ j := by
        have := List.of_mem_filter h2
        simpa using this
      exact ⟨h3, h1⟩
    have hgo := dpGo_bounds prev i hprev hI (by omega) _ (fun _ => 0) best hjs
      (fun j => ⟨Nat.zero_le _, Nat.zero_le _⟩) hbest
    apply ih (i + 1)
    · rw [his]; congr 1; omega
    · omega
    · intro j
      have := hgo.1 j
      omega
    · exact hgo.2

theorem extBackF_bounds {a b : List Char} {alo ahi blo bhi : Nat} :
    ∀ (f : Nat) (best : Nat × Nat × Nat),
      (alo ≤ best.1 ∧ blo ≤ best.2.1 ∧ best.1 + best.2.2 ≤ ahi ∧
        best.2.1 + best.2.2 ≤ bhi) →
      (alo ≤ (extBackF a b alo blo f best).1 ∧
       blo ≤ (extBackF a b alo blo f best).2.1 ∧
       (extBackF a b alo blo f best).1 + (extBackF a b alo blo f best).2.2 ≤ ahi ∧
       (extBackF a b alo blo f best).2.1 + (extBackF a b alo blo f best).2.2 ≤ bhi) := by
  intro f
  induction f with
  | zero => intro best hbest; exact hbest
  | succ f ih =>
    intro best hbest
    obtain ⟨bi, bj, bs⟩ := best
    simp only [extBackF]
    split
    · rename_i hcond
      apply ih
      simp only at hbest ⊢
      omega
    · exact hbest

theorem extFwdF_bounds {a b : List Char} {alo ahi blo bhi : Nat} :
    ∀ (f : Nat) (best : Nat × Nat × Nat),
      (alo ≤ best.1 ∧ blo ≤ best.2.1 ∧ best.1 + best.2.2 ≤ ahi ∧
        best.2.1 + best.2.2 ≤ bhi) →
      (alo ≤ (extFwdF a b ahi bhi f best).1 ∧
       blo ≤ (extFwdF a b ahi bhi f best).2.1 ∧
       (extFwdF a b ahi bhi f best).1 + (extFwdF a b ahi bhi f best).2.2 ≤ ahi ∧
       (extFwdF a b ahi bhi f best).2.1 + (extFwdF a b ahi bhi f best).2.2 ≤ bhi) := by
  intro f
  induction f with
  | zero => intro best hbest; exact hbest
  | succ f ih =>
    intro best hbest
    obtain ⟨bi, bj, bs⟩ := best
    simp only [extFwdF]
    split
    · rename_i hcond
      apply ih
      simp only at hbest ⊢
      omega
    · exact hbest

theorem flm_bounds {a b : List Char} {alo ahi blo bhi : Nat}
    (hao : alo ≤ ahi) (hbo : blo ≤ bhi) :
    alo ≤ (flm a b alo ahi blo bhi).1 ∧
    blo ≤ (flm a b alo ahi blo bhi).2.1 ∧
    (flm a b alo ahi blo bhi).1 + (flm a b alo ahi blo bhi).2.2 ≤ ahi ∧
    (flm a b alo ahi blo bhi).2.1 + (flm a b alo ahi blo bhi).2.2 ≤ bhi := by
  unfold flm
  apply extFwdF_bounds
  apply extBackF_bounds
  apply dpRows_bounds (natRange alo (ahi - alo)) alo _ _ rfl (le_refl alo)
  · exact fun j => ⟨Nat.zero_le _, Nat.zero_le _⟩
  · exact ⟨le_refl _, le_refl _, show alo + 0 ≤ ahi by omega,
      show blo + 0 ≤ bhi by omega⟩

theorem mblocks_sum_le {a b : List Char} :
    ∀ (fuel alo ahi blo bhi : Nat), alo ≤ ahi → blo ≤ bhi →
      ((mblocks a b fuel alo ahi blo bhi).map (fun t => t.2.2)).sum ≤ ahi - alo ∧
      ((mblocks a b fuel alo ahi blo bhi).map (fun t => t.2.2)).sum ≤ bhi - blo := by
  intro fuel
  induction fuel with
  | zero => intro alo ahi blo bhi _ _; simp [mblocks]
  | succ fuel ih =>
    intro alo ahi blo bhi hao hbo
    have hflm := flm_bounds (a := a) (b := b) hao hbo
    rcases hr : flm a b alo ahi blo bhi with ⟨i, j, k⟩
    rw [hr] at hflm
    simp only at hflm
    obtain ⟨h1, h2, h3, h4⟩ := hflm
    simp only [mblocks, hr]
    by_cases hk : k = 0
    · rw [if_pos hk]; simp
    · rw [if_neg hk]
      simp only [List.map_append, List.sum_append, List.map_cons, List.sum_cons]
      have hleft :
          ((if alo < i ∧ blo < j then mblocks a b fuel alo i blo j else []).map
            (fun t => t.2.2)).sum ≤ i - alo ∧
          ((if alo < i ∧ blo < j then mblocks a b fuel alo i blo j else []).map
            (fun t => t.2.2)).sum ≤ j - blo := by
        split_ifs with hc
        · exact ih alo i blo j hc.1.le hc.2.le
        · simp
      have hright :
          ((if i + k < ahi ∧ j + k < bhi then
              mblocks a b fuel (i + k) ahi (j + k) bhi else []).map
            (fun t => t.2.2)).sum ≤ ahi - (i + k) ∧
          ((if i + k < ahi ∧ j + k < bhi then
              mblocks a b fuel (i + k) ahi (j + k) bhi else []).map
            (fun t => t.2.2)).sum ≤ bhi - (j + k) := by
        split_ifs with hc
        · exact ih (i + k) ahi (j + k) bhi hc.1.le hc.2.le
        · simp
      omega

theorem matchesTot_le (a b : List Char) :
    matchesTot a b ≤ a.length ∧ matchesTot a b ≤ b.length := by
  unfold matchesTot
  have := mblocks_sum_le (a := a) (b := b) (a.length + b.length + 1) 0
    a.length 0 b.length (Nat.zero_le _) (Nat.zero_le _)
  simpa using this

/-- C2 (amended).  The similarity scorer is not symmetric in general (see
`C2_counterexample`), but it is a normalized score: `0 ≤ ratio(a,b) ≤ 1`
for all strings — the matched total never exceeds either length. -/
theorem C2_ratio_bounds (a b : List Char) :
    0 ≤ ratioVal a b ∧ ratioVal a b ≤ 1 := by
  unfold ratioVal
  split_ifs with h
  · norm_num
  · rw [Rat.mkRat_eq_div]
    constructor
    · positivity
    · apply div_le_one_of_le₀
      · have h1 := (matchesTot_le a b).1
        have h2 := (matchesTot_le a b).2
        have : (2 * matchesTot a b : ℕ) ≤ a.length + b.length := by omega
        exact_mod_cast this
      · positivity

/-! ### Identity of the matcher on equal strings

The dynamic programme on `a` vs `a` always seeds a *diagonal* best block,
which the extension loops then grow to the whole string; hence
`ratio(a, a) = 1`.  The proof tracks the cell semantics `vSelf` through the
row fold. -/

theorem takeWhile_all {α : Type _} {p : α → Bool} :
    ∀ {l : List α}, (∀ x ∈ l, p x = true) → l.takeWhile p = l := by
  intro l
  induction l with
  | nil => intro _; rfl
  | cons x xs ih =>
    intro h
    rw [List.takeWhile_cons, if_pos (h x (List.mem_cons_self _ _))]
    rw [ih (fun y hy => h y (List.mem_cons_of_mem _ hy))]

theorem natRange_pairwise {s n : Nat} : (natRange s n).Pairwise (· < ·) := by
  induction n generalizing s with
  | zero => exact List.Pairwise.nil
  | succ n ih =>
    refine List.Pairwise.cons ?_ ih
    intro x hx
    have := mem_natRange.mp hx
    omega

theorem b2j_mem {b : List Char} {c : Char} {j : Nat} :
    j ∈ b2j b c ↔
      ¬ (200 ≤ b.length ∧ b.length / 100 + 1 < (indicesOf b c).length) ∧
      j < b.length ∧ nth b j = c := by
  unfold b2j
  split
  · rename_i hpop
    simp only [List.not_mem_nil, false_iff]
    intro h
    exact h.1 hpop
  · rename_i hpop
    unfold indicesOf
    rw [List.mem_filter, mem_natRange]
    simp only [decide_eq_true_eq]
    constructor
    · rintro ⟨h1, h2⟩; exact ⟨hpop, by omega, h2⟩
    · rintro ⟨_, h1, h2⟩; exact ⟨⟨by omega, by omega⟩, h2⟩

theorem b2j_sorted {b : List Char} {c : Char} :
    (b2j b c).Pairwise (· < ·) := by
  unfold b2j
  split
  · exact List.Pairwise.nil
  · unfold indicesOf
    exact List.Pairwise.filter _ natRange_pairwise

theorem seedCond_iff {a : List Char} {i j : Nat} :
    seedCond a i j ↔
      ¬ (200 ≤ a.length ∧
          a.length / 100 + 1 < (indicesOf a (nth a i)).length) ∧
      j < a.length ∧ nth a j = nth a i := by
  unfold seedCond
  exact b2j_mem

theorem seedCond_jj {a : List Char} {i j : Nat} (h : seedCond a i j) :
    seedCond a j j := by
  rw [seedCond_iff] at h ⊢
  obtain ⟨h1, h2, h3⟩ := h
  rw [h3]
  exact ⟨h1, h2, rfl⟩

theorem seedCond_ii {a : List Char} {i j : Nat} (h : seedCond a i j)
    (hi : i < a.length) : seedCond a i i := by
  rw [seedCond_iff] at h ⊢
  exact ⟨h.1, hi, rfl⟩

theorem vSelf_cap {a : List Char} : ∀ i j, vSelf a i j ≤ i + 1 ∧ vSelf a i j ≤ j + 1 := by
  intro i
  induction i with
  | zero =>
    intro j
    simp only [vSelf]
    split <;> omega
  | succ i ih =>
    intro j
    cases j with
    | zero => simp only [vSelf]; split <;> omega
    | succ j =>
      simp only [vSelf]
      split
      · have := ih j; omega
      · omega

theorem vSelf_le_diagL {a : List Char} :
    ∀ j i, j ≤ i → vSelf a i j ≤ vSelf a j j := by
  intro j
  induction j with
  | zero =>
    intro i _
    cases i with
    | zero => exact le_refl _
    | succ i =>
      simp only [vSelf]
      split
      · rename_i h
        rw [if_pos (seedCond_jj h)]
      · omega
  | succ j ih =>
    intro i hji
    cases i with
    | zero => omega
    | succ i =>
      simp only [vSelf]
      split
      · rename_i h
        rw [if_pos (seedCond_jj h)]
        have := ih i (by omega)
        omega
      · omega

theorem vSelf_le_diagR {a : List Char} :
    ∀ i j, i ≤ j → vSelf a i j ≤ vSelf a i i := by
  intro i
  induction i with
  | zero =>
    intro j _
    simp only [vSelf]
    split
    · rename_i h
      have hn : (0 : Nat) < a.length := by
        have := (seedCond_iff.mp h).2.1; omega
      rw [if_pos (seedCond_ii h hn)]
    · omega
  | succ i ih =>
    intro j hij
    cases j with
    | zero => omega
    | succ j =>
      simp only [vSelf]
      split
      · rename_i h
        have hn : i + 1 < a.length := by
          have := (seedCond_iff.mp h).2.1; omega
        rw [if_pos (seedCond_ii h hn)]
        have := ih j (by omega)
        omega
      · omega

theorem vSelf_zero {a : List Char} {i j : Nat} (h : ¬ seedCond a i j) :
    vSelf a i j = 0 := by
  cases i with
  | zero => simp only [vSelf]; rw [if_neg h]
  | succ i =>
    cases j with
    | zero => simp only [vSelf]; rw [if_neg h]
    | succ j => simp only [vSelf]; rw [if_neg h]

theorem dpGo_diag {a : List Char} {i : Nat} {prev : Nat → Nat}
    (hi : i < a.length)
    (hk : ∀ j, seedCond a i j →
      (if j = 0 then 0 else prev (j - 1)) + 1 = vSelf a i j) :
    ∀ (js done : List Nat) (new : Nat → Nat) (best : Nat × Nat × Nat),
      js.Pairwise (· < ·) →
      (∀ j, (j ∈ done ∨ j ∈ js) ↔ seedCond a i j) →
      (∀ x ∈ done, ∀ y ∈ js, x < y) →
      (∀ x, new x = if x ∈ done then vSelf a i x else 0) →
      best.1 = best.2.1 →
      (∀ i' j', i' < i → vSelf a i' j' ≤ best.2.2) →
      (∀ j' ∈ done, vSelf a i j' ≤ best.2.2) →
      ((dpGo prev i js new best).2.1 = (dpGo prev i js new best).2.2.1 ∧
       (∀ x, (dpGo prev i js new best).1 x =
         if seedCond a i x then vSelf a i x else 0) ∧
       (∀ i' j', i' ≤ i → vSelf a i' j' ≤ (dpGo prev i js new best).2.2.2)) := by
  intro js
  induction js with
  | nil =>
    intro done new best _ hsplit _ hnew hdiag hmax1 hmax2
    simp only [dpGo]
    refine ⟨hdiag, ?_, ?_⟩
    · intro x
      rw [hnew x]
      by_cases hc : seedCond a i x
      · have hd : x ∈ done := by
          rcases (hsplit x).mpr hc with h | h
          · exact h
          · exact absurd h (List.not_mem_nil x)
        rw [if_pos hc, if_pos hd]
      · have hd : ¬ x ∈ done := fun hmem => hc ((hsplit x).mp (Or.inl hmem))
        rw [if_neg hc, if_neg hd]
    · intro i' j' hi'
      rcases Nat.lt_or_ge i' i with h | h
      · exact hmax1 i' j' h
      · have hii : i' = i := by omega
        subst hii
        by_cases hc : seedCond a i' j'
        · refine hmax2 j' ?_
          rcases (hsplit j').mpr hc with h | h
          · exact h
          · exact absurd h (List.not_mem_nil j')
        · rw [vSelf_zero hc]; exact Nat.zero_le _
  | cons j rest ih =>
    intro done new best hsort hsplit horder hnew hdiag hmax1 hmax2
    have hcond : seedCond a i j := (hsplit j).mp (Or.inr (List.mem_cons_self _ _))
    have hkj : (if j = 0 then 0 else prev (j - 1)) + 1 = vSelf a i j := hk j hcond
    have hsort' := (List.pairwise_cons.mp hsort).2
    have hhead := (List.pairwise_cons.mp hsort).1
    have hsplit' : ∀ x, (x ∈ done ++ [j] ∨ x ∈ rest) ↔ seedCond a i x := by
      intro x
      rw [← hsplit x]
      simp only [List.mem_append, List.mem_cons, List.mem_singleton]
      tauto
    have horder' : ∀ x ∈ done ++ [j], ∀ y ∈ rest, x < y := by
      intro x hx y hy
      rcases List.mem_append.mp hx with hx | hx
      · exact horder x hx y (List.mem_cons_of_mem _ hy)
      · rw [List.mem_singleton] at hx
        subst hx
        exact hhead y hy
    have hnew' : ∀ x,
        (if x = j then (if j = 0 then 0 else prev (j - 1)) + 1 else new x) =
          if x ∈ done ++ [j] then vSelf a i x else 0 := by
      intro x
      by_cases hx : x = j
      · have hmem : x ∈ done ++ [j] := by simp [hx]
        rw [if_pos hx, if_pos hmem, hx]
        exact hkj
      · have hd : (x ∈ done ++ [j]) ↔ (x ∈ done) := by
          simp [List.mem_append, hx]
        rw [if_neg hx, hnew x]
        by_cases hmem : x ∈ done
        · rw [if_pos hmem, if_pos (hd.mpr hmem)]
        · rw [if_neg hmem, if_neg (fun h => hmem (hd.mp h))]
    simp only [dpGo]
    by_cases hlt : best.2.2 < (if j = 0 then 0 else prev (j - 1)) + 1
    · rw [if_pos hlt]
      have hji : j = i := by
        rcases Nat.lt_trichotomy j i with h | h | h
        · exfalso
          have h1 : vSelf a i j ≤ vSelf a j j := vSelf_le_diagL j i h.le
          have h2 : vSelf a j j ≤ best.2.2 := hmax1 j j h
          omega
        · exact h
        · exfalso
          have h1 : vSelf a i j ≤ vSelf a i i := vSelf_le_diagR i j h.le
          have hci : seedCond a i i := seedCond_ii hcond hi
          have hdone : i ∈ done := by
            rcases (hsplit i).mpr hci with hd | hd
            · exact hd
            · rcases List.mem_cons.mp hd with hd | hd
              · omega
              · have := hhead i hd; omega
          have h2 : vSelf a i i ≤ best.2.2 := hmax2 i hdone
          omega
      apply ih (done ++ [j]) _ _ hsort' hsplit' horder' hnew'
      · show i + 1 - ((if j = 0 then 0 else prev (j - 1)) + 1) =
          j + 1 - ((if j = 0 then 0 else prev (j - 1)) + 1)
        rw [hji]
      · intro i' j' hi'
        have h1 := hmax1 i' j' hi'
        exact Nat.le_of_lt (Nat.lt_of_le_of_lt h1 hlt)
      · intro j' hj'
        rcases List.mem_append.mp hj' with hd | hd
        · exact Nat.le_of_lt (Nat.lt_of_le_of_lt (hmax2 j' hd) hlt)
        · rw [List.mem_singleton] at hd
          subst hd
          exact hkj.ge
    · rw [if_neg hlt]
      apply ih (done ++ [j]) _ _ hsort' hsplit' horder' hnew' hdiag hmax1
      intro j' hj'
      rcases List.mem_append.mp hj' with hd | hd
      · exact hmax2 j' hd
      · rw [List.mem_singleton] at hd
        subst hd
        omega

theorem rowJs_eq {a : List Char} {i : Nat} :
    ((b2j a (nth a i)).filter (fun j => decide (0 ≤ j))).takeWhile
      (fun j => decide (j < a.length)) = b2j a (nth a i) := by
  have hfil : (b2j a (nth a i)).filter (fun j => decide (0 ≤ j)) =
      b2j a (nth a i) :=
    List.filter_eq_self.mpr (fun x _ => by simp)
  rw [hfil]
  apply takeWhile_all
  intro x hx
  have := (b2j_mem.mp hx).2.1
  simpa using this

theorem dpRows_diag {a : List Char} :
    ∀ (rows : List Nat) (I : Nat) (prev : Nat → Nat) (best : Nat × Nat × Nat),
      rows = natRange I (a.length - I) →
      (∀ j, prev j = if I = 0 then 0 else vSelf a (I - 1) j) →
      best.1 = best.2.1 →
      (∀ i' j', i' < I → vSelf a i' j' ≤ best.2.2) →
      (dpRows a a 0 a.length rows prev best).1 =
        (dpRows a a 0 a.length rows prev best).2.1 := by
  intro rows
  induction rows with
  | nil => intro I prev best _ _ hdiag _; exact hdiag
  | cons i is ih =>
    intro I prev best hrows hprev hdiag hmax
    have hm : a.length - I ≠ 0 := fun h0 => by
      rw [h0] at hrows; exact List.noConfusion hrows
    obtain ⟨m, hm'⟩ : ∃ m, a.length - I = m + 1 := ⟨a.length - I - 1, by omega⟩
    rw [hm'] at hrows
    simp only [natRange] at hrows
    obtain ⟨hiI, his⟩ := List.cons.inj hrows
    subst hiI
    have hilt : i < a.length := by omega
    have hk : ∀ j, seedCond a i j →
        (if j = 0 then 0 else prev (j - 1)) + 1 = vSelf a i j := by
      intro j hcond
      by_cases hj0 : j = 0
      · subst hj0
        rw [if_pos rfl]
        cases i with
        | zero => simp only [vSelf]; rw [if_pos hcond]
        | succ i' => simp only [vSelf]; rw [if_pos hcond]
      · obtain ⟨j', rfl⟩ : ∃ j', j = j' + 1 := ⟨j - 1, by omega⟩
        rw [if_neg hj0, hprev]
        cases i with
        | zero =>
          rw [if_pos rfl]
          simp only [vSelf]
          rw [if_pos hcond]
        | succ i' =>
          rw [if_neg (Nat.succ_ne_zero i')]
          simp only [Nat.add_sub_cancel, Nat.succ_sub_one]
          simp only [vSelf]
          rw [if_pos hcond]
    have hgo := dpGo_diag hilt hk (b2j a (nth a i)) [] (fun _ => 0) best
      b2j_sorted
      (fun j => by
        simp only [List.not_mem_nil, false_or]
        exact Iff.rfl)
      (fun x hx => absurd hx (List.not_mem_nil x))
      (fun x => by rw [if_neg (List.not_mem_nil x)])
      hdiag hmax (fun j' hj' => absurd hj' (List.not_mem_nil j'))
    simp only [dpRows, rowJs_eq]
    apply ih (i + 1)
    · rw [his]
      congr 1
      omega
    · intro j
      rw [if_neg (by omega : ¬ i + 1 = 0)]
      simp only [Nat.add_sub_cancel]
      rw [hgo.2.1 j]
      by_cases hc : seedCond a i j
      · rw [if_pos hc]
      · rw [if_neg hc, vSelf_zero hc]
    · exact hgo.1
    · intro i' j' hi'
      rcases Nat.lt_or_ge i' (i + 1) with _ | h
      · exact hgo.2.2 i' j' (by omega)
      · omega

theorem extBackF_diag {a : List Char} :
    ∀ (d s : Nat), extBackF a a 0 0 d (d, d, s) = (0, 0, d + s) := by
  intro d
  induction d with
  | zero =>
    intro s
    rw [Nat.zero_add]
    rfl
  | succ d ih =>
    intro s
    simp only [extBackF]
    rw [if_pos (by exact ⟨by omega, by omega, by simp⟩)]
    simp only [Nat.succ_sub_one]
    have harith : d + (s + 1) = d + 1 + s := by omega
    rw [ih (s + 1), harith]

theorem extFwdF_diag {a : List Char} :
    ∀ (f s : Nat), s ≤ a.length → a.length - s ≤ f →
      extFwdF a a a.length a.length f (0, 0, s) = (0, 0, a.length) := by
  intro f
  induction f with
  | zero =>
    intro s h1 h2
    have hs : s = a.length := by omega
    subst hs
    rfl
  | succ f ih =>
    intro s h1 h2
    by_cases hs : s < a.length
    · simp only [extFwdF]
      rw [if_pos (by exact ⟨by omega, by omega, by simp⟩)]
      exact ih (s + 1) (by omega) (by omega)
    · have hs' : s = a.length := by omega
      subst hs'
      simp only [extFwdF]
      rw [if_neg (by omega)]

theorem flm_self (a : List Char) :
    flm a a 0 a.length 0 a.length = (0, 0, a.length) := by
  unfold flm
  have hdiag := dpRows_diag (natRange 0 (a.length - 0)) 0 (fun _ => 0) (0, 0, 0)
    rfl (fun j => by rw [if_pos rfl]) rfl
    (fun i' j' h => absurd h (Nat.not_lt_zero i'))
  have hbounds := @dpRows_bounds a a 0 a.length 0 a.length
    (natRange 0 (a.length - 0)) 0 (fun _ => 0)
    (0, 0, 0) rfl (le_refl 0) (fun j => ⟨Nat.zero_le _, Nat.zero_le _⟩)
    ⟨le_refl _, le_refl _, show 0 + 0 ≤ a.length by omega,
      show 0 + 0 ≤ a.length by omega⟩
  rcases hseed : dpRows a a 0 a.length (natRange 0 (a.length - 0)) (fun _ => 0)
    (0, 0, 0) with ⟨bi, bj, bs⟩
  rw [hseed] at hdiag hbounds
  simp only at hdiag hbounds
  subst hdiag
  dsimp only
  rw [extBackF_diag bi bs]
  exact extFwdF_diag a.length (bi + bs) (by omega) (by omega)

theorem matchesTot_self (a : List Char) : matchesTot a a = a.length := by
  unfold matchesTot
  by_cases h : a.length = 0
  · -- empty string: the first longest match is empty, no blocks at all
    have ha : a = [] := List.length_eq_zero.mp h
    subst ha
    rfl
  · simp only [mblocks, flm_self]
    rw [if_neg h]
    rw [if_neg (by omega : ¬ (0 < 0 ∧ 0 < 0)),
      if_neg (by omega : ¬ (0 + a.length < a.length ∧ 0 + a.length < a.length))]
    simp

theorem ratioVal_self (a : List Char) : ratioVal a a = 1 := by
  unfold ratioVal
  by_cases h : a.length + a.length = 0
  · rw [if_pos h]
  · rw [if_neg h, matchesTot_self, Rat.mkRat_eq_div]
    rw [div_eq_one_iff_eq (by
      intro h0
      have : ((a.length + a.length : ℕ) : ℚ) = 0 := by exact_mod_cast h0
      rw [Nat.cast_eq_zero] at this
      exact h this)]
    push_cast
    ring

/-- C8.  Identity: the similarity of any string with itself is 1.0 (proved
for the full matcher embedding, including the `autojunk` pruning), and
`is_semantic_duplicate(a, a)` with the default thresholds answers duplicate
with confidence 1.0 via the high-similarity rule. -/
theorem C8_identity (a : List Char) :
    ratioVal a a = 1 ∧
    Detector.is_semantic_duplicate a a = (true, Detector.Method.highSim, 1) := by
  have h1 : ratioVal (lowerStr a) (lowerStr a) = 1 := ratioVal_self _
  refine ⟨ratioVal_self a, ?_⟩
  simp only [Detector.is_semantic_duplicate]
  rw [h1, if_pos (by decide : (mkRat 3 4 : ℚ) ≤ 1)]
